import Mathlib

/-!
Verification of the extraction decision pipeline of the field_guide repository
(src/tools/extract_content.py, src/tools/extract_content_ocr.py,
src/tools/extract_new_radios.py, src/tools/download_pdfs.py).

Python strings are embedded as `List Char`.  Python's `\s`, `str.strip()` and
`str.split()` whitespace is modelled by the six ASCII whitespace characters
(space, tab, newline, carriage return, vertical tab, form feed), which is what
Python uses on ASCII text.  Python `int` is embedded as `Int`.  Operations
that can raise are embedded with `Option`/`Except` results.
-/

namespace FieldGuide

/-- Python whitespace test (the backslash-s class, and the default str.strip
and str.split character set) over the ASCII range: space, tab, newline,
vertical tab, form feed, carriage return, by code point. -/
def isPySpace (c : Char) : Bool :=
  c.toNat == 32 || c.toNat == 9 || c.toNat == 10
    || c.toNat == 11 || c.toNat == 12 || c.toNat == 13

/-- The character class of the capital letters A to Z, by code point. -/
def isUpperAZ (c : Char) : Bool :=
  decide (65 ≤ c.toNat) && decide (c.toNat ≤ 90)

/-- The character class of the small letters a to z, by code point. -/
def isLowerAZ (c : Char) : Bool :=
  decide (97 ≤ c.toNat) && decide (c.toNat ≤ 122)

/-- The digit class 0 to 9, by code point. -/
def isDigit09 (c : Char) : Bool :=
  decide (48 ≤ c.toNat) && decide (c.toNat ≤ 57)

/-- Python `str.strip()` with no argument: remove leading and trailing
whitespace. -/
def pyStrip (s : List Char) : List Char :=
  ((s.dropWhile isPySpace).reverse.dropWhile isPySpace).reverse

/-- Python `int(...)` applied to a nonempty string of decimal digits
(the only way the sources call it: on a `\d+` capture group). -/
def digitsToNat (ds : List Char) : Nat :=
  ds.foldl (fun acc c => 10 * acc + (c.toNat - '0'.toNat)) 0

/-! ## Extraction-method classifier

`needs_ocr` in src/tools/extract_content_ocr.py (lines 36-50) and, identically,
in src/tools/extract_new_radios.py (lines 44-58).  A PDF document, once
opened, is a list of pages; from each page the code reads the embedded text
(`page.get_text()`) and the embedded image list (`page.get_images()`), of
which only the length is used. -/

/-- One page of an opened PDF as the classifier sees it:
the embedded text layer and the number of embedded images. -/
structure PdfPage where
  text   : List Char
  images : Nat
deriving DecidableEq

/-- Sum over all pages of `len(page.get_text().strip())`. -/
def totalTextLen (doc : List PdfPage) : Nat :=
  (doc.map fun p => (pyStrip p.text).length).sum

/-- Sum over all pages of `len(page.get_images())`. -/
def totalImages (doc : List PdfPage) : Nat :=
  (doc.map fun p => p.images).sum

/-- `needs_ocr`: `return total_text < 500 and total_images > 0`. -/
def needs_ocr (doc : List PdfPage) : Bool :=
  decide (totalTextLen doc < 500) && decide (totalImages doc > 0)

/-- The derived extraction decision (spec section 3, `ExtractionDecision`). -/
inductive ExtractionDecision where
  | Native
  | OCR
deriving DecidableEq

/-- The method selection made from `needs_ocr` by the callers
(`check_pdfs`, `main` in extract_content_ocr.py; `--check` and `main` in
extract_new_radios.py): OCR iff `needs_ocr` returns true. -/
def classify (doc : List PdfPage) : ExtractionDecision :=
  if needs_ocr doc then .OCR else .Native

/-! ## Native page-text extraction

`extract_text_by_page` in src/tools/extract_content.py (lines 14-27); the
function `extract_text_native` in src/tools/extract_content_ocr.py
(lines 91-106) is the same loop.  An opened document is the list of the
`page.get_text()` results in document order. -/

/-- A Page record `{"page": page_num + 1, "text": text}`. -/
structure Page where
  page : Nat
  text : List Char
deriving DecidableEq

/-- The `for page_num, page in enumerate(doc)` loop, carrying the running
`page_num` counter. -/
def extractPagesFrom (n : Nat) : List (List Char) → List Page
  | [] => []
  | t :: ts => ⟨n + 1, t⟩ :: extractPagesFrom (n + 1) ts

/-- `extract_text_by_page`: one Page per document page, numbered from 1,
text exactly as returned by the embedded text layer. -/
def extract_text_by_page (doc : List (List Char)) : List Page :=
  extractPagesFrom 0 doc

/-- `extract_text_native` (extract_content_ocr.py) is the identical loop. -/
def extract_text_native (doc : List (List Char)) : List Page :=
  extract_text_by_page doc

/-! ## TOC detection

The function find_toc_entries in src/tools/extract_content.py, lines 30-48,
runs a MULTILINE findall of the pattern

  caret, group of: A-Z then one-or-more-lazy of the class A-Z a-z whitespace
  ampersand slash hyphen; then two or more dots; then optional whitespace;
  then group of: one or more digits; then optional whitespace, dollar

over the first 10 page texts and turns each match into an entry with the
first group stripped and the second parsed as an integer.  The scan below is
the specialisation of the backtracking findall to this fixed pattern.
Because the title class excludes both the dot and the digits, the lazy
one-or-more can only stop at the end of the maximal title-class run, the dot
run is consumed maximally, and the digit run is consumed maximally; the only
genuine backtracking left is in the trailing whitespace-then-dollar, which
consumes the longest whitespace prefix that ends at a MULTILINE dollar
position (end of string, or just before a newline). -/

/-- The title character class of the TOC pattern: letters, whitespace,
ampersand, slash, hyphen. -/
def isTocTitleChar (c : Char) : Bool :=
  isUpperAZ c || isLowerAZ c || isPySpace c || c == '&' || c == '/' || c == '-'

/-- A table-of-contents candidate: trimmed title and `int(page_num)`. -/
structure TOCEntry where
  title : List Char
  page  : Int
deriving DecidableEq

/-- Greedy `\s*$` (MULTILINE): consume the longest whitespace prefix after
which `$` holds; return the unconsumed suffix, or `none` when no whitespace
prefix ends at a `$` position. -/
def consumeWsToDollar : List Char → Option (List Char)
  | [] => some []
  | c :: rest =>
    if isPySpace c then
      match consumeWsToDollar rest with
      | some r => some r
      | none => if c == '\n' then some (c :: rest) else none
    else none

/-- The tail of the TOC pattern after the title group: at least two dots,
then maximal whitespace, then a maximal nonempty digit run (the page-number
group), then whitespace-to-dollar.  Returns the digit run and the suffix
after the match. -/
def tocTail (s : List Char) : Option (List Char × List Char) :=
  let dots := s.takeWhile fun c => c == '.'
  let s1 := s.dropWhile fun c => c == '.'
  if dots.length < 2 then none
  else
    let s2 := s1.dropWhile isPySpace
    let digs := s2.takeWhile isDigit09
    let s3 := s2.dropWhile isDigit09
    if digs.isEmpty then none
    else
      match consumeWsToDollar s3 with
      | some r => some (digs, r)
      | none => none

/-- One anchored match attempt of the TOC pattern at a `^` position whose
first character is `c0`: `[A-Z]`, then the maximal nonempty title-class run,
then the tail.  On success returns the TOCEntry (title stripped, page number
parsed) and the suffix after the match. -/
def tocMatchAt (c0 : Char) (s : List Char) : Option (TOCEntry × List Char) :=
  if isUpperAZ c0 then
    let run := s.takeWhile isTocTitleChar
    let s1 := s.dropWhile isTocTitleChar
    if run.isEmpty then none
    else
      match tocTail s1 with
      | some (digs, r) => some (⟨pyStrip (c0 :: run), Int.ofNat (digitsToNat digs)⟩, r)
      | none => none
  else none

/-- The `findall` scan: walk the text once; at every `^` position (start of
text, or just after a newline) attempt an anchored match; on success emit the
entry and resume after the match, otherwise advance one character.  `fuel` is
an upper bound on the number of steps; each step consumes at least one
character, so `fuel = text.length` runs the scan to completion. -/
def tocScanAux : Nat → List Char → Bool → List TOCEntry
  | 0, _, _ => []
  | _, [], _ => []
  | fuel + 1, c :: rest, anch =>
    if anch then
      match tocMatchAt c rest with
      | some (e, r) => e :: tocScanAux fuel r false
      | none => tocScanAux fuel rest (c == '\n')
    else tocScanAux fuel rest (c == '\n')

/-- `toc_pattern.findall` over one page text. -/
def find_toc_entries_page (text : List Char) : List TOCEntry :=
  tocScanAux text.length text true

/-- `find_toc_entries`: run the pattern over the first 10 pages
(`pages[:10]`), appending the matches of each page in order. -/
def find_toc_entries (pages : List Page) : List TOCEntry :=
  ((pages.take 10).map fun p => find_toc_entries_page p.text).flatten

/-! ## Menu-entry detection

The function extract_menu_entries in src/tools/extract_content.py, lines
51-72, runs a MULTILINE and DOTALL findall of the pattern

  caret, group of: A-Z then 2-to-20-greedy of the class A-Z 0-9 whitespace;
  then optional whitespace; then one of hyphen, colon, en-dash; then optional
  whitespace; then group of: one-or-more-lazy of any character; up to a
  lookahead of either newline then a menu-name-and-separator shape, or two
  newlines, or absolute end of input

and then, for each match, strips the name, collapses whitespace runs of the
description, keeps the match only when the stripped name has at most 20
characters and the collapsed description more than 10, and truncates the
kept description to 500 characters.

Backtracking specialises as with the TOC pattern: the separator is not in
the name class, so it can only be found at the end of the maximal name-class
run, reached across a whitespace-only gap; the greedy 2-to-20 repetition
therefore takes the smaller of 20 and the run length, and a run longer than
20 matches only when everything past its first 20 characters is whitespace.
After the separator, the greedy optional whitespace leaves at least one
character for the lazy description, which then grows one character at a time
until the lookahead holds (the absolute-end alternative always holds at the
end of the input, so a match only fails when the separator is the last
character). -/

/-- The menu-name character class: A-Z, 0-9 and whitespace. -/
def isMenuNameChar (c : Char) : Bool :=
  isUpperAZ c || isDigit09 c || isPySpace c

/-- The separator class: hyphen, colon, or en-dash. -/
def isSepChar (c : Char) : Bool :=
  c == '-' || c == ':' || c == '–'

/-- Match the menu-name-and-separator shape at a position whose first
character is `c0`.  Returns the raw name group (21 characters at most: the
initial capital and up to 20 class characters) and the suffix after the
separator. -/
def menuNameAt (c0 : Char) (s : List Char) : Option (List Char × List Char) :=
  if isUpperAZ c0 then
    let run := s.takeWhile isMenuNameChar
    let s1 := s.dropWhile isMenuNameChar
    if run.length < 2 then none
    else if run.length ≤ 20 || (run.drop 20).all isPySpace then
      match s1 with
      | sep :: rest => if isSepChar sep then some (c0 :: run.take 20, rest) else none
      | [] => none
    else none
  else none

/-- The lookahead: absolute end of input, or a newline followed by either a
second newline or a menu-name-and-separator shape. -/
def menuLookaheadAt (s : List Char) : Bool :=
  match s with
  | [] => true
  | c :: rest =>
    c == '\n' &&
      (rest.head? == some '\n' ||
        (match rest with
         | c1 :: rest1 => (menuNameAt c1 rest1).isSome
         | [] => false))

/-- Grow the lazy description one character at a time until the lookahead
holds; reaching the end of the input is the absolute-end lookahead.
Returns the description (accumulated in reverse in `acc`) and the suffix at
which the match ends. -/
def descExtend (acc : List Char) : List Char → List Char × List Char
  | [] => (acc.reverse, [])
  | c :: rest =>
    if menuLookaheadAt (c :: rest) then (acc.reverse, c :: rest)
    else descExtend (c :: acc) rest

/-- The description group: at least one character (any character, DOTALL),
then extend until the lookahead holds. -/
def descFrom : List Char → Option (List Char × List Char)
  | [] => none
  | c :: rest => some (descExtend [c] rest)

/-- One anchored match attempt of the menu pattern at a caret position whose
first character is `c0`.  On success returns the raw name and description
groups and the suffix at which the match ends. -/
def menuMatchAt (c0 : Char) (s : List Char) :
    Option ((List Char × List Char) × List Char) :=
  match menuNameAt c0 s with
  | none => none
  | some (nameRaw, afterSep) =>
    let w := (afterSep.takeWhile isPySpace).length
    let a := if w < afterSep.length then w else afterSep.length - 1
    match descFrom (afterSep.drop a) with
    | some (desc, rest) => some ((nameRaw, desc), rest)
    | none => none

/-- The findall scan for the menu pattern, emitting the raw group pairs in
order of discovery; same fuel discipline as `tocScanAux`. -/
def menuScanAux : Nat → List Char → Bool → List (List Char × List Char)
  | 0, _, _ => []
  | _, [], _ => []
  | fuel + 1, c :: rest, anch =>
    if anch then
      match menuMatchAt c rest with
      | some (pair, r) => pair :: menuScanAux fuel r false
      | none => menuScanAux fuel rest (c == '\n')
    else menuScanAux fuel rest (c == '\n')

/-- Python str.split with no argument: the maximal whitespace-free words, in
order, empty runs discarded.  `fuel` as in the scanners. -/
def pyWordsAux : Nat → List Char → List (List Char)
  | 0, _ => []
  | _, [] => []
  | fuel + 1, c :: rest =>
    if isPySpace c then pyWordsAux fuel rest
    else (c :: rest.takeWhile fun x => !isPySpace x)
      :: pyWordsAux fuel (rest.dropWhile fun x => !isPySpace x)

/-- Words of a string, Python str.split with no argument. -/
def pyWords (s : List Char) : List (List Char) :=
  pyWordsAux s.length s

/-- Join word lists with single spaces. -/
def joinSpace : List (List Char) → List Char
  | [] => []
  | [w] => w
  | w :: ws => w ++ ' ' :: joinSpace ws

/-- The normalisation applied to each description: join of split, collapsing
every whitespace run to a single space and removing outer whitespace. -/
def normalizeWs (s : List Char) : List Char :=
  joinSpace (pyWords s)

/-- A menu-entry record: the constant type tag, the stripped name and the
normalised, truncated description. -/
structure MenuEntry where
  type : List Char
  name : List Char
  description : List Char
deriving DecidableEq

/-- The body of extract_menu_entries: for every raw match, strip the name,
normalise the description, keep the pair when the name has at most 20
characters and the description more than 10, truncating the description to
500 characters. -/
def extract_menu_entries (text : List Char) : List MenuEntry :=
  (menuScanAux text.length text true).filterMap fun nd =>
    let name := pyStrip nd.1
    let description := normalizeWs nd.2
    if name.length ≤ 20 ∧ 10 < description.length then
      some ⟨("menuEntry").data, name, description.take 500⟩
    else none

/-! ## Skeleton assembly

generate_skeleton in src/tools/extract_content.py (lines 75-117) and in
src/tools/extract_content_ocr.py (lines 125-172).  Both look the radio up in
the MANUALS table of src/tools/download_pdfs.py (a missing key raises, so the
lookup is embedded with an Option result), then build one SectionStub per
entry of the same fixed eight-title template.  The unused url field of the
MANUALS entries is omitted: no modelled function reads it. -/

/-- One MANUALS record (download_pdfs.py, lines 8-112), without the unused
url field. -/
structure Manual where
  manufacturer : List Char
  name : List Char
  filename : List Char
  revision : List Char
deriving DecidableEq

/-- Python dict lookup by key, a missing key raising KeyError. -/
def dictGet (d : List (List Char × Manual)) (k : List Char) : Option Manual :=
  match d with
  | [] => none
  | (k1, v) :: rest => if k1 == k then some v else dictGet rest k

/-- The MANUALS table. -/
def MANUALS : List (List Char × Manual) :=
  [(("elecraft-k1").data,
    ⟨("Elecraft").data, ("K1").data, ("E740016_K1_manual_rev_J.pdf").data, ("J").data⟩),
   (("elecraft-k2").data,
    ⟨("Elecraft").data, ("K2").data, ("E740001_K2_Owners_Manual_Rev_I.pdf").data, ("I").data⟩),
   (("elecraft-kx1").data,
    ⟨("Elecraft").data, ("KX1").data, ("KX1_Owners_Manual_Rev_E.pdf").data, ("E").data⟩),
   (("elecraft-kx2").data,
    ⟨("Elecraft").data, ("KX2").data, ("KX2_owners_man_B2.pdf").data, ("B2").data⟩),
   (("elecraft-kx3").data,
    ⟨("Elecraft").data, ("KX3").data, ("E740163_KX3_Owners_man_Rev_C5.pdf").data, ("C5").data⟩),
   (("elecraft-kh1").data,
    ⟨("Elecraft").data, ("KH1").data, ("KH1_Owners_Manual_rev_B4.pdf").data, ("B4").data⟩),
   (("hamgadgets-cft1").data,
    ⟨("HamGadgets").data, ("CFT1").data, ("CFT1_Assembly_Manual_RevC_V12.pdf").data, ("C V12").data⟩),
   (("penntek-tr45l").data,
    ⟨("PennTek").data, ("TR-45L").data, ("TR-45L_Instructions_V2.pdf").data, ("V2").data⟩),
   (("penntek-tr35").data,
    ⟨("PennTek").data, ("TR-35").data, ("TR-35_Operating_Instructions.pdf").data, ("1").data⟩),
   (("lnr-mtr4b-v2").data,
    ⟨("LNR Precision").data, ("MTR 4B V2").data, ("MTR_4B_V2_Manual.pdf").data, ("2021-01-12").data⟩),
   (("lnr-mtr3b-v4").data,
    ⟨("LNR Precision").data, ("MTR 3B V4 Currahee").data, ("MTR_3B_V4_Currahee_Manual.pdf").data, ("V4").data⟩),
   (("lnr-mtr5b").data,
    ⟨("LNR Precision").data, ("MTR 5B").data, ("MTR_5B_Manual_Rev4.pdf").data, ("4").data⟩),
   (("lnr-ld5").data,
    ⟨("LNR Precision").data, ("LD-5").data, ("LD-5_Manual.pdf").data, ("2015-07-13").data⟩),
   (("yaesu-ft891").data,
    ⟨("Yaesu").data, ("FT-891").data, ("FT-891_Instruction_Manual.pdf").data, ("1").data⟩)]

/-- Python str.lower over the ASCII range. -/
def toLowerAZ (c : Char) : Char :=
  if isUpperAZ c then Char.ofNat (c.toNat + 32) else c

/-- Python str.replace with a one-character needle. -/
def charReplace (a : Char) (new : List Char) (s : List Char) : List Char :=
  s.flatMap fun c => if c == a then new else [c]

/-- The slug of a section title: lowercase, spaces to hyphens, slash to
hyphen, ampersand to the word and. -/
def slugify (title : List Char) : List Char :=
  charReplace '&' (("and").data)
    (charReplace '/' (("-").data)
      (charReplace ' ' (("-").data) (title.map toLowerAZ)))

/-- The section id: radio identifier, hyphen, slugified title. -/
def sectionId (radio_id title : List Char) : List Char :=
  radio_id ++ '-' :: slugify title

/-- The fixed eight-title template, identical in both scripts. -/
def target_sections : List (List Char) :=
  [("Operation Basics").data,
   ("Menu System Reference").data,
   ("CW/Keyer Settings").data,
   ("Filters & DSP").data,
   ("Power & Battery").data,
   ("ATU Operation").data,
   ("Specifications").data,
   ("Quick Troubleshooting").data]

/-- A section stub: deterministic id, title, 1-based sort order, one
placeholder paragraph block, and the source-pages placeholder. -/
structure SectionStub where
  id : List Char
  title : List Char
  sortOrder : Nat
  blocks : List (List Char)
  sourcePages : List Char
deriving DecidableEq

/-- The enumerate loop over the template: one stub per title,
sortOrder counting from n + 1.  The two scripts differ only in the tail of
the placeholder block text and in the source-pages placeholder, passed in as
`blockTail` and `srcPages`. -/
def mkSectionsFrom (radio_id blockTail srcPages : List Char) (n : Nat) :
    List (List Char) → List SectionStub
  | [] => []
  | t :: ts =>
    ⟨sectionId radio_id t, t, n + 1,
      [("[TODO: Extract ").data ++ t ++ blockTail], srcPages⟩
      :: mkSectionsFrom radio_id blockTail srcPages (n + 1) ts

/-- The radio metadata block of a skeleton. -/
structure RadioMeta where
  id : List Char
  manufacturer : List Char
  model : List Char
  revision : List Char
  pdfFilename : List Char
deriving DecidableEq

/-- The skeleton produced by extract_content.py: radio metadata (with the
manufacturer hard-coded to Elecraft), sections, extracted TOC and page
count; it records no extraction method. -/
structure Skeleton where
  radio : RadioMeta
  sections : List SectionStub
  extractedTOC : List TOCEntry
  pageCount : Nat
deriving DecidableEq

/-- The skeleton produced by extract_content_ocr.py: radio metadata (with
the manufacturer from the MANUALS record), sections, page count, and the
recorded extraction method. -/
structure SkeletonOcr where
  radio : RadioMeta
  sections : List SectionStub
  pageCount : Nat
  extractionMethod : List Char
deriving DecidableEq

/-- generate_skeleton of extract_content.py. -/
def generate_skeleton (radio_id : List Char) (pages : List Page)
    (toc : List TOCEntry) : Option Skeleton :=
  match dictGet MANUALS radio_id with
  | none => none
  | some manual => some
      { radio := ⟨radio_id, ("Elecraft").data, manual.name, manual.revision,
          manual.filename⟩
        sections := mkSectionsFrom radio_id ((" content from PDF]").data)
          (("[TODO: Add relevant page numbers from PDF]").data) 0 target_sections
        extractedTOC := toc
        pageCount := pages.length }

/-- generate_skeleton of extract_content_ocr.py: the recorded extraction
method is the constant ocr, whatever extractor produced `pages`. -/
def generate_skeleton_ocr (radio_id : List Char) (pages : List Page) :
    Option SkeletonOcr :=
  match dictGet MANUALS radio_id with
  | none => none
  | some manual => some
      { radio := ⟨radio_id, manual.manufacturer, manual.name, manual.revision,
          manual.filename⟩
        sections := mkSectionsFrom radio_id ((" content from OCR text]").data)
          (("[TODO: Add relevant page numbers]").data) 0 target_sections
        pageCount := pages.length
        extractionMethod := ("ocr").data }

/-- The per-document method selection of main in extract_content_ocr.py
(line 248): OCR when needs_ocr returns true or the force flag is set. -/
def chosen_method (doc : List PdfPage) (force : Bool) : ExtractionDecision :=
  if needs_ocr doc || force then .OCR else .Native

/-! ## Handle lifecycle

Each of needs_ocr, extract_text_by_page / extract_text_native and
extract_text_ocr opens the document, loops over its pages and then calls
close, with no try-finally and no context manager: an exception raised by a
per-page operation propagates past the close call.  Below, each per-page
interaction that can raise is an Option (none embeds a raised exception),
the overall run returns an Except result, and the Bool records whether the
close call was reached (true also when no handle was ever opened). -/

/-- The extraction loop over fallible per-page text reads: stops at the
first raised exception. -/
def runPagesExc (n : Nat) : List (Option (List Char)) → Except Unit (List Page)
  | [] => .ok []
  | none :: _ => .error ()
  | some t :: ts =>
    match runPagesExc (n + 1) ts with
    | .ok ps => .ok (⟨n + 1, t⟩ :: ps)
    | .error e => .error e

/-- extract_text_by_page (and extract_text_native) with the handle
lifecycle: close is reached only when every per-page read returns. -/
def extract_text_by_page_run (doc : List (Option (List Char))) :
    Except Unit (List Page) × Bool :=
  match runPagesExc 0 doc with
  | .ok ps => (.ok ps, true)
  | .error e => (.error e, false)

/-- The classifier loop over fallible per-page reads of the text layer and
the image list: stops at the first raised exception. -/
def sumTotalsExc : List (Option (List Char × Nat)) → Except Unit (Nat × Nat)
  | [] => .ok (0, 0)
  | none :: _ => .error ()
  | some (t, imgs) :: ps =>
    match sumTotalsExc ps with
    | .ok (a, b) => .ok ((pyStrip t).length + a, imgs + b)
    | .error e => .error e

/-- needs_ocr with the handle lifecycle. -/
def needs_ocr_run (doc : List (Option (List Char × Nat))) :
    Except Unit Bool × Bool :=
  match sumTotalsExc doc with
  | .ok (t, i) => (.ok (decide (t < 500) && decide (i > 0)), true)
  | .error e => (.error e, false)

/-- extract_text_ocr with the handle lifecycle: when the OCR dependencies
are missing it raises before opening the document (no handle to leak);
otherwise each page is rendered and recognised, either step fallible. -/
def extract_text_ocr_run (ocrAvailable : Bool)
    (doc : List (Option (List Char))) : Except Unit (List Page) × Bool :=
  if ocrAvailable then
    match runPagesExc 0 doc with
    | .ok ps => (.ok ps, true)
    | .error e => (.error e, false)
  else (.error (), true)

/-- Statement vocabulary: no two adjacent whitespace characters (every
whitespace run has length one), the shape a collapsed description keeps
under truncation. -/
def noAdjWs : List Char → Bool
  | [] => true
  | [_] => true
  | a :: b :: r => !(isPySpace a && isPySpace b) && noAdjWs (b :: r)

/-! ## Lemmas about the character classes and pyStrip -/

theorem upper_not_space {c : Char} (h : isUpperAZ c = true) :
    isPySpace c = false := by
  rcases Bool.and_eq_true_iff.mp h with ⟨h1, h2⟩
  have h1 := of_decide_eq_true h1
  have h2 := of_decide_eq_true h2
  simp only [isPySpace, Bool.or_eq_false_iff, beq_eq_false_iff_ne]
  omega

theorem upper_is_menuNameChar {c : Char} (h : isUpperAZ c = true) :
    isMenuNameChar c = true := by
  simp [isMenuNameChar, h]

theorem dropWhile_head_not (p : Char → Bool) :
    ∀ (l : List Char) (c : Char) (r : List Char),
      l.dropWhile p = c :: r → p c = false := by
  intro l
  induction l with
  | nil => intro c r h; simp [List.dropWhile] at h
  | cons a l ih =>
    intro c r h
    by_cases ha : p a = true
    · rw [List.dropWhile_cons, if_pos ha] at h
      exact ih c r h
    · rw [List.dropWhile_cons, if_neg ha] at h
      cases h
      exact Bool.eq_false_iff.mpr ha

theorem dropWhile_idem (p : Char → Bool) (l : List Char) :
    (l.dropWhile p).dropWhile p = l.dropWhile p := by
  cases h : l.dropWhile p with
  | nil => rfl
  | cons c r =>
    have hc := dropWhile_head_not p l c r h
    rw [List.dropWhile_cons, if_neg (by simp [hc])]

theorem dropWhile_append_last {p : Char → Bool} {a : Char}
    (ha : p a = false) :
    ∀ l : List Char, ∃ t, (l ++ [a]).dropWhile p = t ++ [a] := by
  intro l
  induction l with
  | nil => exact ⟨[], by simp [List.dropWhile_cons, ha]⟩
  | cons b l ih =>
    by_cases hb : p b = true
    · obtain ⟨t, ht⟩ := ih
      exact ⟨t, by simp [List.dropWhile_cons, hb, ht]⟩
    · exact ⟨b :: l, by simp [List.dropWhile_cons, hb]⟩

theorem pyStrip_cons_not_space {c0 : Char} (h : isPySpace c0 = false)
    (xs : List Char) : ∃ ys, pyStrip (c0 :: xs) = c0 :: ys := by
  unfold pyStrip
  rw [List.dropWhile_cons, if_neg (by simp [h])]
  obtain ⟨t, ht⟩ := dropWhile_append_last h xs.reverse
  refine ⟨t.reverse, ?_⟩
  rw [show (c0 :: xs).reverse = xs.reverse ++ [c0] by simp, ht]
  simp

theorem mem_pyStrip {c : Char} {l : List Char} (h : c ∈ pyStrip l) :
    c ∈ l := by
  unfold pyStrip at h
  rw [List.mem_reverse] at h
  have h := (List.dropWhile_sublist _).mem h
  rw [List.mem_reverse] at h
  exact (List.dropWhile_sublist _).mem h

theorem pyStrip_idem (l : List Char) : pyStrip (pyStrip l) = pyStrip l := by
  cases hBc : (l.dropWhile isPySpace).reverse.dropWhile isPySpace with
  | nil =>
    have hform : pyStrip l = [] := by unfold pyStrip; rw [hBc]; rfl
    rw [hform]; rfl
  | cons c r =>
    have hform : pyStrip l = (c :: r).reverse := by unfold pyStrip; rw [hBc]
    have hcB : isPySpace c = false := dropWhile_head_not _ _ c r hBc
    have hAsplit :
        (l.dropWhile isPySpace).reverse.takeWhile isPySpace ++ (c :: r)
          = (l.dropWhile isPySpace).reverse := by
      rw [← hBc]
      exact List.takeWhile_append_dropWhile _ _
    have hArev : l.dropWhile isPySpace
        = (c :: r).reverse
          ++ ((l.dropWhile isPySpace).reverse.takeWhile isPySpace).reverse := by
      have h2 := congrArg List.reverse hAsplit
      simpa using h2.symm
    have hstep1 : ((c :: r).reverse).dropWhile isPySpace = (c :: r).reverse := by
      cases hBr : (c :: r).reverse with
      | nil => simp at hBr
      | cons d s =>
        have hAd : l.dropWhile isPySpace
            = d :: (s
              ++ ((l.dropWhile isPySpace).reverse.takeWhile isPySpace).reverse) := by
          rw [hBr] at hArev
          simpa using hArev
        have hd : isPySpace d = false := dropWhile_head_not _ l d _ hAd
        rw [List.dropWhile_cons, if_neg (by simp [hd])]
    have hstep2 : (c :: r).dropWhile isPySpace = c :: r := by
      rw [List.dropWhile_cons, if_neg (by simp [hcB])]
    rw [hform]
    unfold pyStrip
    rw [hstep1, List.reverse_reverse, hstep2]

/-! ## Shape lemmas for the TOC scan -/

theorem tocMatchAt_entry {c0 : Char} {s : List Char} {e : TOCEntry}
    {r : List Char} (h : tocMatchAt c0 s = some (e, r)) :
    ∃ raw ds, e.title = pyStrip raw ∧ e.page = Int.ofNat (digitsToNat ds) := by
  unfold tocMatchAt at h
  dsimp only at h
  split at h
  · split at h
    · simp at h
    · split at h
      · simp only [Option.some.injEq, Prod.mk.injEq] at h
        obtain ⟨h1, h2⟩ := h
        subst h1
        exact ⟨_, _, rfl, rfl⟩
      · simp at h
  · simp at h

theorem tocScanAux_entry :
    ∀ (fuel : Nat) (s : List Char) (anch : Bool) (e : TOCEntry),
      e ∈ tocScanAux fuel s anch →
      ∃ raw ds, e.title = pyStrip raw ∧ e.page = Int.ofNat (digitsToNat ds) := by
  intro fuel
  induction fuel with
  | zero => intro s anch e h; simp [tocScanAux] at h
  | succ n ih =>
    intro s anch e h
    cases s with
    | nil => simp [tocScanAux] at h
    | cons c rest =>
      unfold tocScanAux at h
      split at h
      · split at h
        next e1 r heq =>
          rcases List.mem_cons.mp h with h1 | h2
          · subst h1; exact tocMatchAt_entry heq
          · exact ih r false e h2
        next heq => exact ih rest (c == '\n') e h
      · exact ih rest (c == '\n') e h

theorem find_toc_entries_entry {pages : List Page} {e : TOCEntry}
    (h : e ∈ find_toc_entries pages) :
    ∃ raw ds, e.title = pyStrip raw ∧ e.page = Int.ofNat (digitsToNat ds) := by
  unfold find_toc_entries at h
  rcases List.mem_flatten.mp h with ⟨l, hl, hel⟩
  rcases List.mem_map.mp hl with ⟨p, _, hp⟩
  subst hp
  exact tocScanAux_entry _ _ _ e hel

/-! ## Shape lemmas for the menu scan -/

theorem menuNameAt_shape {c0 : Char} {s nm rest : List Char}
    (h : menuNameAt c0 s = some (nm, rest)) :
    ∃ xs, nm = c0 :: xs ∧ isUpperAZ c0 = true
      ∧ ∀ c ∈ xs, isMenuNameChar c = true := by
  unfold menuNameAt at h
  dsimp only at h
  split at h
  next hu =>
    split at h
    · simp at h
    · split at h
      · split at h
        next sep rest2 =>
          split at h
          · simp only [Option.some.injEq, Prod.mk.injEq] at h
            refine ⟨(s.takeWhile isMenuNameChar).take 20, h.1.symm, hu, ?_⟩
            intro c hc
            exact List.mem_takeWhile_imp
              (List.Sublist.mem hc (List.take_sublist _ _))
          · simp at h
        next => simp at h
      · simp at h
  next => simp at h

theorem menuMatchAt_shape {c0 : Char} {s : List Char}
    {nd : List Char × List Char} {r : List Char}
    (h : menuMatchAt c0 s = some (nd, r)) :
    ∃ xs, nd.1 = c0 :: xs ∧ isUpperAZ c0 = true
      ∧ ∀ c ∈ xs, isMenuNameChar c = true := by
  unfold menuMatchAt at h
  dsimp only at h
  split at h
  next => simp at h
  next nameRaw afterSep hn =>
    split at h
    next desc rest hd =>
      simp only [Option.some.injEq, Prod.mk.injEq] at h
      obtain ⟨h1, h2⟩ := h
      obtain ⟨xs, hxs, hu, hmem⟩ := menuNameAt_shape hn
      refine ⟨xs, ?_, hu, hmem⟩
      rw [← h1]
      exact hxs
    next => simp at h

theorem menuScanAux_shape :
    ∀ (fuel : Nat) (s : List Char) (anch : Bool)
      (nd : List Char × List Char), nd ∈ menuScanAux fuel s anch →
      ∃ c0 xs, nd.1 = c0 :: xs ∧ isUpperAZ c0 = true
        ∧ ∀ c ∈ xs, isMenuNameChar c = true := by
  intro fuel
  induction fuel with
  | zero => intro s anch nd h; simp [menuScanAux] at h
  | succ n ih =>
    intro s anch nd h
    cases s with
    | nil => simp [menuScanAux] at h
    | cons c rest =>
      unfold menuScanAux at h
      split at h
      · split at h
        next pair r heq =>
          rcases List.mem_cons.mp h with h1 | h2
          · subst h1; exact ⟨c, menuMatchAt_shape heq⟩
          · exact ih r false nd h2
        next heq => exact ih rest (c == '\n') nd h
      · exact ih rest (c == '\n') nd h

/-! ## Lemmas about whitespace normalisation -/

theorem pyWordsAux_sound :
    ∀ (fuel : Nat) (s : List Char) (w : List Char), w ∈ pyWordsAux fuel s →
      w ≠ [] ∧ ∀ c ∈ w, isPySpace c = false := by
  intro fuel
  induction fuel with
  | zero => intro s w h; simp [pyWordsAux] at h
  | succ n ih =>
    intro s w h
    cases s with
    | nil => simp [pyWordsAux] at h
    | cons c rest =>
      unfold pyWordsAux at h
      split at h
      · exact ih rest w h
      next hc =>
        rcases List.mem_cons.mp h with h1 | h2
        · subst h1
          refine ⟨by simp, ?_⟩
          intro x hx
          rcases List.mem_cons.mp hx with hx1 | hx2
          · subst hx1; exact Bool.eq_false_iff.mpr hc
          · have := List.mem_takeWhile_imp hx2
            simpa using this
        · exact ih _ w h2

theorem noAdjWs_of_all_nonws :
    ∀ {l : List Char}, (∀ c ∈ l, isPySpace c = false) → noAdjWs l = true := by
  intro l
  induction l with
  | nil => intro _; rfl
  | cons a t ih =>
    intro h
    cases t with
    | nil => rfl
    | cons b r =>
      have ha := h a (List.mem_cons_self a _)
      have hrest : ∀ c ∈ b :: r, isPySpace c = false :=
        fun c hc => h c (List.mem_cons_of_mem _ hc)
      show (!(isPySpace a && isPySpace b) && noAdjWs (b :: r)) = true
      simp [ha, ih hrest]

theorem noAdjWs_append_nonws :
    ∀ (w r : List Char), (∀ c ∈ w, isPySpace c = false) →
      noAdjWs r = true → noAdjWs (w ++ r) = true := by
  intro w
  induction w with
  | nil => intro r _ hr; simpa using hr
  | cons a t ih =>
    intro r hw hr
    rw [List.cons_append]
    have htr : noAdjWs (t ++ r) = true :=
      ih r (fun c hc => hw c (List.mem_cons_of_mem _ hc)) hr
    have ha := hw a (List.mem_cons_self a t)
    cases ht : t ++ r with
    | nil => rfl
    | cons b s =>
      rw [ht] at htr
      show (!(isPySpace a && isPySpace b) && noAdjWs (b :: s)) = true
      simp [ha, htr]

theorem noAdjWs_cons_of_head {c : Char} {t : List Char}
    (hhead : ∀ d, t.head? = some d → isPySpace d = false)
    (ht : noAdjWs t = true) : noAdjWs (c :: t) = true := by
  cases t with
  | nil => rfl
  | cons b s =>
    have hb := hhead b rfl
    show (!(isPySpace c && isPySpace b) && noAdjWs (b :: s)) = true
    simp [hb, ht]

theorem joinSpace_head_not_space :
    ∀ (ws : List (List Char)),
      (∀ w ∈ ws, w ≠ [] ∧ ∀ c ∈ w, isPySpace c = false) →
      ∀ d, (joinSpace ws).head? = some d → isPySpace d = false := by
  intro ws
  induction ws with
  | nil => intro _ d hd; simp [joinSpace] at hd
  | cons w t ih =>
    intro hall d hd
    have hw := hall w (List.mem_cons_self w t)
    cases t with
    | nil =>
      cases w with
      | nil => exact absurd rfl hw.1
      | cons a r =>
        have : a = d := by simpa [joinSpace] using hd
        subst this
        exact hw.2 a (List.mem_cons_self a r)
    | cons w2 t2 =>
      cases w with
      | nil => exact absurd rfl hw.1
      | cons a r =>
        have : a = d := by simpa [joinSpace] using hd
        subst this
        exact hw.2 a (List.mem_cons_self a r)

theorem noAdjWs_joinSpace :
    ∀ (ws : List (List Char)),
      (∀ w ∈ ws, w ≠ [] ∧ ∀ c ∈ w, isPySpace c = false) →
      noAdjWs (joinSpace ws) = true := by
  intro ws
  induction ws with
  | nil => intro _; rfl
  | cons w t ih =>
    intro hall
    have hw := hall w (List.mem_cons_self w t)
    cases t with
    | nil => exact noAdjWs_of_all_nonws hw.2
    | cons w2 t2 =>
      have htail : ∀ v ∈ w2 :: t2, v ≠ [] ∧ ∀ c ∈ v, isPySpace c = false :=
        fun v hv => hall v (List.mem_cons_of_mem _ hv)
      show noAdjWs (w ++ ' ' :: joinSpace (w2 :: t2)) = true
      refine noAdjWs_append_nonws _ _ hw.2 ?_
      exact noAdjWs_cons_of_head (joinSpace_head_not_space (w2 :: t2) htail)
        (ih htail)

theorem mem_joinSpace {c : Char} :
    ∀ {ws : List (List Char)}, c ∈ joinSpace ws →
      (∃ w ∈ ws, c ∈ w) ∨ c = ' ' := by
  intro ws
  induction ws with
  | nil => intro h; simp [joinSpace] at h
  | cons w t ih =>
    intro h
    cases t with
    | nil =>
      left
      exact ⟨w, List.mem_cons_self w _, by simpa [joinSpace] using h⟩
    | cons w2 t2 =>
      have h2 : c ∈ w ++ ' ' :: joinSpace (w2 :: t2) := h
      rcases List.mem_append.mp h2 with h3 | h4
      · left; exact ⟨w, List.mem_cons_self w _, h3⟩
      · rcases List.mem_cons.mp h4 with h5 | h6
        · right; exact h5
        · rcases ih h6 with ⟨v, hv, hcv⟩ | hsp
          · left; exact ⟨v, List.mem_cons_of_mem _ hv, hcv⟩
          · right; exact hsp

theorem normalizeWs_space_char {s : List Char} {c : Char}
    (h : c ∈ normalizeWs s) (hws : isPySpace c = true) : c = ' ' := by
  rcases mem_joinSpace h with ⟨w, hw, hcw⟩ | hsp
  · have hf := (pyWordsAux_sound s.length s w hw).2 c hcw
    exact absurd hws (by simp [hf])
  · exact hsp

theorem noAdjWs_normalizeWs (s : List Char) : noAdjWs (normalizeWs s) = true :=
  noAdjWs_joinSpace _ (fun w hw => pyWordsAux_sound s.length s w hw)

theorem noAdjWs_take :
    ∀ (l : List Char) (n : Nat), noAdjWs l = true → noAdjWs (l.take n) = true := by
  intro l
  induction l with
  | nil => intro n h; simpa using h
  | cons a t ih =>
    intro n h
    cases n with
    | zero => rfl
    | succ m =>
      cases t with
      | nil => cases m <;> rfl
      | cons b s =>
        have hpair : (!(isPySpace a && isPySpace b)) = true :=
          (Bool.and_eq_true_iff.mp h).1
        have hrest : noAdjWs (b :: s) = true :=
          (Bool.and_eq_true_iff.mp h).2
        cases m with
        | zero => rfl
        | succ k =>
          show (!(isPySpace a && isPySpace b)
            && noAdjWs (b :: s.take k)) = true
          have hk : noAdjWs ((b :: s).take (k + 1)) = true := ih (k + 1) hrest
          simp [hpair]
          simpa using hk

/-! ## The claims -/

theorem extractPagesFrom_length (n : Nat) (doc : List (List Char)) :
    (extractPagesFrom n doc).length = doc.length := by
  induction doc generalizing n with
  | nil => rfl
  | cons t ts ih => simp [extractPagesFrom, ih]

theorem extractPagesFrom_get? (n : Nat) (doc : List (List Char)) (i : Nat) :
    (extractPagesFrom n doc).get? i
      = (doc.get? i).map fun t => ⟨n + i + 1, t⟩ := by
  induction doc generalizing n i with
  | nil => simp [extractPagesFrom]
  | cons t ts ih =>
    cases i with
    | zero => simp [extractPagesFrom]
    | succ j =>
      simp only [extractPagesFrom, List.get?]
      rw [ih]
      have harith : n + 1 + j = n + (j + 1) := by omega
      rw [harith]

/-- Claim C1: the classifier returns OCR exactly when the total trimmed
embedded-text length over all pages is below 500 and the total embedded-image
count is at least 1; in every other case, including the zero-page document,
it returns Native. -/
theorem classifier_ocr_iff :
    (∀ doc : List PdfPage,
      classify doc = .OCR ↔ totalTextLen doc < 500 ∧ 1 ≤ totalImages doc)
    ∧ classify [] = .Native := by
  constructor
  · intro doc
    unfold classify needs_ocr
    constructor
    · intro h
      by_cases hb : (decide (totalTextLen doc < 500)
          && decide (totalImages doc > 0)) = true
      · rcases Bool.and_eq_true_iff.mp hb with ⟨h1, h2⟩
        exact ⟨of_decide_eq_true h1, of_decide_eq_true h2⟩
      · simp [hb] at h
    · intro ⟨h1, h2⟩
      simp [h1, h2]
      omega
  · rfl

/-- Claim C2: native extraction of an N-page document yields exactly N Page
records in document order, with page numbers 1..N (1-based, increasing, no
gaps) and each text taken verbatim from the embedded layer, unmodified. -/
theorem native_extraction_pages :
    ∀ doc : List (List Char),
      (extract_text_by_page doc).length = doc.length
      ∧ ∀ i : Nat, (extract_text_by_page doc).get? i
          = (doc.get? i).map fun t => ⟨i + 1, t⟩ := by
  intro doc
  refine ⟨extractPagesFrom_length 0 doc, fun i => ?_⟩
  rw [extract_text_by_page, extractPagesFrom_get? 0 doc i]
  simp

/-- Claim C3, counterexample: a page text that contains the line
Specifications, dots, 42 need not contribute the entry with title
Specifications: when the preceding line also starts the title class, the
match's title group crosses the line break (the class includes the newline),
and the single produced entry carries the line-spanning title instead. -/
theorem toc_line_correspondence_cex :
    find_toc_entries [⟨1, ("Abc\nSpecifications.......... 42\n").data⟩]
      ≠ [⟨("Specifications").data, 42⟩]
    ∧ find_toc_entries [⟨1, ("Abc\nSpecifications.......... 42\n").data⟩]
      = [⟨("Abc\nSpecifications").data, 42⟩] := by
  constructor
  · decide
  · decide

/-- Claim C3 (amended): TOC detection examines only the first 10 pages;
every produced entry has its title trimmed of surrounding whitespace (titles
may span line boundaries, because the title class includes whitespace); and
on a page whose text is exactly the line Specifications, dots, 42, it yields
exactly the entry with title Specifications and page 42. -/
theorem toc_detection_behavior :
    (∀ pages : List Page,
      find_toc_entries pages = find_toc_entries (pages.take 10))
    ∧ (∀ (pages : List Page) (e : TOCEntry),
        e ∈ find_toc_entries pages → pyStrip e.title = e.title)
    ∧ find_toc_entries [⟨1, ("Specifications.......... 42\n").data⟩]
        = [⟨("Specifications").data, 42⟩] := by
  refine ⟨?_, ?_, by decide⟩
  · intro pages
    unfold find_toc_entries
    rw [List.take_take]
    norm_num
  · intro pages e h
    obtain ⟨raw, ds, ht, _⟩ := find_toc_entries_entry h
    rw [ht, pyStrip_idem]

/-- Claim C3, witness: the amended theorem applied to the worked example. -/
theorem toc_detection_behavior_witness :
    (⟨("Specifications").data, (42 : Int)⟩ : TOCEntry)
      ∈ find_toc_entries [⟨1, ("Specifications.......... 42\n").data⟩]
    ∧ pyStrip (("Specifications").data) = ("Specifications").data :=
  ⟨by decide,
    toc_detection_behavior.2.1
      [⟨1, ("Specifications.......... 42\n").data⟩]
      ⟨("Specifications").data, (42 : Int)⟩ (by decide)⟩

/-- Claim C4, counterexample: a menu entry whose stripped name has fewer
than 3 characters is emitted: the raw name group is at least 3 characters,
but stripping its trailing whitespace can leave a single character. -/
theorem menu_name_length_cex :
    ¬ (∀ e ∈ extract_menu_entries (("A  - abcdefghijkl").data),
        3 ≤ e.name.length) := by
  decide

/-- Claim C4 (amended): every emitted MenuEntry has a name of 1 to 20
characters (the raw match has 3 to 21, but stripping can shorten it), which
starts with an uppercase letter and consists of uppercase letters, digits
and whitespace (not only spaces: the class includes newlines and tabs); and
a description of more than 10 and at most 500 characters in which every
whitespace character is a single space with no two adjacent. -/
theorem menu_entry_shape :
    ∀ (text : List Char) (e : MenuEntry), e ∈ extract_menu_entries text →
      (1 ≤ e.name.length ∧ e.name.length ≤ 20)
      ∧ (∀ c, e.name.head? = some c → isUpperAZ c = true)
      ∧ (∀ c ∈ e.name, isMenuNameChar c = true)
      ∧ (10 < e.description.length ∧ e.description.length ≤ 500)
      ∧ (∀ c ∈ e.description, isPySpace c = true → c = ' ')
      ∧ noAdjWs e.description = true := by
  intro text e h
  unfold extract_menu_entries at h
  rcases List.mem_filterMap.mp h with ⟨nd, hnd, hf⟩
  dsimp only at hf
  split at hf
  next hcond =>
    simp only [Option.some.injEq] at hf
    subst hf
    obtain ⟨c0, xs, hxs, hu, hmem⟩ := menuScanAux_shape _ _ _ nd hnd
    have hc0 : isPySpace c0 = false := upper_not_space hu
    obtain ⟨ys, hys⟩ := pyStrip_cons_not_space hc0 xs
    have hname : pyStrip nd.1 = c0 :: ys := by rw [hxs]; exact hys
    refine ⟨⟨?_, hcond.1⟩, ?_, ?_, ⟨?_, ?_⟩, ?_, ?_⟩
    · show 1 ≤ (pyStrip nd.1).length
      rw [hname]; simp
    · intro c hc
      have hc2 : (pyStrip nd.1).head? = some c := hc
      rw [hname] at hc2
      simp only [List.head?_cons, Option.some.injEq] at hc2
      subst hc2; exact hu
    · intro c hc
      have hc2 : c ∈ pyStrip (c0 :: xs) := by rw [← hxs]; exact hc
      rcases List.mem_cons.mp (mem_pyStrip hc2) with h1 | h2
      · subst h1; exact upper_is_menuNameChar hu
      · exact hmem c h2
    · show 10 < ((normalizeWs nd.2).take 500).length
      rw [List.length_take]
      exact lt_min (by norm_num) hcond.2
    · show ((normalizeWs nd.2).take 500).length ≤ 500
      rw [List.length_take]
      exact min_le_left _ _
    · intro c hc hws
      have hc2 : c ∈ normalizeWs nd.2 :=
        List.Sublist.mem hc (List.take_sublist _ _)
      exact normalizeWs_space_char hc2 hws
    · exact noAdjWs_take _ 500 (noAdjWs_normalizeWs nd.2)
  next => simp at hf

/-- Claim C4, witness: the amended theorem applied to a concrete entry. -/
theorem menu_entry_shape_witness :
    (⟨("menuEntry").data, ("A").data, ("abcdefghijkl").data⟩ : MenuEntry)
      ∈ extract_menu_entries (("A  - abcdefghijkl").data)
    ∧ (1 ≤ (("A").data : List Char).length
        ∧ (("A").data : List Char).length ≤ 20)
      ∧ (∀ c, (("A").data : List Char).head? = some c → isUpperAZ c = true)
      ∧ (∀ c ∈ (("A").data : List Char), isMenuNameChar c = true)
      ∧ (10 < (("abcdefghijkl").data : List Char).length
          ∧ (("abcdefghijkl").data : List Char).length ≤ 500)
      ∧ (∀ c ∈ (("abcdefghijkl").data : List Char),
          isPySpace c = true → c = ' ')
      ∧ noAdjWs (("abcdefghijkl").data) = true :=
  ⟨by decide,
    menu_entry_shape (("A  - abcdefghijkl").data)
      ⟨("menuEntry").data, ("A").data, ("abcdefghijkl").data⟩ (by decide)⟩

/-- Claim C5, counterexample: on the end-to-end scenario's page-1 text,
menu-entry detection does not yield the claimed single entry. -/
theorem menu_scenario_cex :
    extract_menu_entries (("MENU SYSTEM\n\nCW SPEED - Sets keying speed.\n").data)
      ≠ [⟨("menuEntry").data, ("MENU SYSTEM").data,
          ("CW SPEED - Sets keying speed.").data⟩] := by
  decide

/-- Claim C5 (amended): on the page-1 text of the end-to-end scenario,
menu-entry detection yields no entry at all: the greedy name class spans the
blank line and absorbs the CW SPEED line, making the raw name 21 characters,
which the at-most-20 filter rejects after stripping removes nothing. -/
theorem menu_scenario_zero_entries :
    extract_menu_entries (("MENU SYSTEM\n\nCW SPEED - Sets keying speed.\n").data)
      = [] := by
  decide

/-- Claim C6: for every radio identifier accepted by the MANUALS lookup,
and for any pages and TOC entries whatsoever, both skeleton generators
produce the same fixed eight section titles in order, sortOrder 1..8
contiguously, and ids equal to the radio identifier joined by a hyphen with
the slugified title. -/
theorem skeleton_fixed_sections :
    (∀ (radio_id : List Char) (pages : List Page) (toc : List TOCEntry)
        (sk : Skeleton), generate_skeleton radio_id pages toc = some sk →
        (sk.sections.map fun s => s.title) = target_sections
        ∧ (sk.sections.map fun s => s.sortOrder) = [1, 2, 3, 4, 5, 6, 7, 8]
        ∧ (sk.sections.map fun s => s.id)
            = target_sections.map (sectionId radio_id))
    ∧ (∀ (radio_id : List Char) (pages : List Page) (sk : SkeletonOcr),
        generate_skeleton_ocr radio_id pages = some sk →
        (sk.sections.map fun s => s.title) = target_sections
        ∧ (sk.sections.map fun s => s.sortOrder) = [1, 2, 3, 4, 5, 6, 7, 8]
        ∧ (sk.sections.map fun s => s.id)
            = target_sections.map (sectionId radio_id)) := by
  constructor
  · intro radio_id pages toc sk h
    unfold generate_skeleton at h
    cases hm : dictGet MANUALS radio_id with
    | none => rw [hm] at h; simp at h
    | some manual =>
      rw [hm] at h
      simp only [Option.some.injEq] at h
      subst h
      exact ⟨rfl, rfl, rfl⟩
  · intro radio_id pages sk h
    unfold generate_skeleton_ocr at h
    cases hm : dictGet MANUALS radio_id with
    | none => rw [hm] at h; simp at h
    | some manual =>
      rw [hm] at h
      simp only [Option.some.injEq] at h
      subst h
      exact ⟨rfl, rfl, rfl⟩

/-- Claim C6, witness: the theorem applied to a known radio identifier with
empty pages and TOC. -/
theorem skeleton_fixed_sections_witness :
    (generate_skeleton (("elecraft-k1").data) [] []).map
        (fun sk => sk.sections.map fun s => s.sortOrder)
      = some [1, 2, 3, 4, 5, 6, 7, 8] := by
  cases hm : generate_skeleton (("elecraft-k1").data) [] [] with
  | none =>
    have hsome : (generate_skeleton (("elecraft-k1").data) [] []).isSome
        = true := rfl
    rw [hm] at hsome
    simp at hsome
  | some sk =>
    have := (skeleton_fixed_sections.1 _ [] [] sk hm).2.1
    simp [this]

/-- Claim C7: the OCR script's skeleton always records the method ocr, even
when the classifier selected native extraction and the pages were produced
by the native extractor; the recorded method therefore does not match the
method actually used.  The document here is a one-page text PDF with no
embedded images: the classifier and the main loop both choose Native, yet
the skeleton built from the natively extracted pages says ocr. -/
theorem extraction_method_mislabeled :
    classify [⟨("Hello world, plain text page.").data, 0⟩] = .Native
    ∧ chosen_method [⟨("Hello world, plain text page.").data, 0⟩] false
        = .Native
    ∧ ((generate_skeleton_ocr (("elecraft-k1").data)
          (extract_text_native [("Hello world, plain text page.").data])).map
        fun sk => sk.extractionMethod) = some (("ocr").data) :=
  ⟨rfl, rfl, rfl⟩

/-- Claim C8, counterexample: a dot-leader line whose printed number is 0
produces an entry with page 0, so pages are not always at least 1. -/
theorem toc_page_positive_cex :
    ¬ (∀ e ∈ find_toc_entries [⟨1, ("Intro.......... 0\n").data⟩],
        1 ≤ e.page) := by
  decide

/-- Claim C8 (amended): every TOCEntry's page number is a nonnegative
integer, the value of the matched nonempty digit run (which can be zero). -/
theorem toc_page_nonneg :
    ∀ (pages : List Page) (e : TOCEntry),
      e ∈ find_toc_entries pages → 0 ≤ e.page := by
  intro pages e h
  obtain ⟨raw, ds, _, hp⟩ := find_toc_entries_entry h
  rw [hp]
  exact Int.ofNat_nonneg _

/-- Claim C8, witness: the amended theorem applied to a concrete entry. -/
theorem toc_page_nonneg_witness :
    (⟨("Chapter One").data, (7 : Int)⟩ : TOCEntry)
      ∈ find_toc_entries [⟨1, ("Chapter One.......... 7\n").data⟩]
    ∧ (0 : Int) ≤ 7 :=
  ⟨by decide,
    toc_page_nonneg [⟨1, ("Chapter One.......... 7\n").data⟩]
      ⟨("Chapter One").data, (7 : Int)⟩ (by decide)⟩

/-- Claim C9: none of the three document-handle users closes the handle on
the error path: when a per-page operation raises, the close call is never
reached (there is no try-finally), so the handle leaks; on the success path
the handle is closed.  The conjuncts evaluate the three runs at concrete
failing inputs and one succeeding input. -/
theorem handle_leak_on_error :
    (extract_text_by_page_run [some (("a").data), none]).2 = false
    ∧ (needs_ocr_run [none]).2 = false
    ∧ (extract_text_ocr_run true [some (("a").data), none]).2 = false
    ∧ (extract_text_by_page_run [some (("a").data)]).2 = true :=
  ⟨rfl, rfl, rfl, rfl⟩

/-- Claim C10: the structural-inference functions are total at the public
interface: the embedding defines them as total functions; on the empty text
and the empty page list they return the empty list, and on any page list of
at most 10 pages TOC detection processes exactly the given pages. -/
theorem inference_total_on_edge_inputs :
    extract_menu_entries [] = []
    ∧ find_toc_entries [] = []
    ∧ ∀ pages : List Page, pages.length ≤ 10 →
        find_toc_entries pages
          = (pages.map fun p => find_toc_entries_page p.text).flatten := by
  refine ⟨rfl, rfl, fun pages h => ?_⟩
  unfold find_toc_entries
  rw [List.take_of_length_le h]

/-- Claim C10, witness: the theorem applied to a one-page list. -/
theorem inference_total_witness :
    ([(⟨1, ("Operation.......... 3\n").data⟩ : Page)]).length ≤ 10
    ∧ find_toc_entries [(⟨1, ("Operation.......... 3\n").data⟩ : Page)]
      = (([(⟨1, ("Operation.......... 3\n").data⟩ : Page)]).map
          fun p => find_toc_entries_page p.text).flatten :=
  ⟨by decide, inference_total_on_edge_inputs.2.2 _ (by decide)⟩

end FieldGuide
